import Mathlib

/-!
Verification of the double-pendulum dynamics core.

The repository holds a planar double-pendulum simulation: a state of two
angles and two angular velocities, a closed-form derivative function
(equations of motion) and a one-step RK4 integrator, plus display
projections of the joint positions.  The source uses f64 arithmetic; the
development below embeds the same formulas over the real numbers.
-/

noncomputable section

namespace DblPendulum

open Real

/-- Four-component real vector, standing in for OVector f64 (Const 4). -/
abbrev V4 := ℝ × ℝ × ℝ × ℝ

/-- The state of the double pendulum, from DoublePendulumState in
dbl_pendulum.rs: two angles and two angular velocities. -/
structure DoublePendulumState where
  θ1 : ℝ
  θ2 : ℝ
  ω1 : ℝ
  ω2 : ℝ

/-- DoublePendulumState.as_mat from dbl_pendulum.rs: the state as a
four-component vector. -/
def DoublePendulumState.as_mat (s : DoublePendulumState) : V4 :=
  (s.θ1, s.θ2, s.ω1, s.ω2)

/-- The physical parameters, from DoublePendulumSystem in dbl_pendulum.rs:
gravity, the two masses and the two rod lengths. -/
structure DoublePendulumSystem where
  g : ℝ
  m1 : ℝ
  m2 : ℝ
  l1 : ℝ
  l2 : ℝ

/-- The derivative function deriv from dbl_pendulum.rs, translated
term by term; outputs the tuple of time derivatives of θ1, θ2, ω1, ω2. -/
def deriv (θ1 θ2 ω1 ω2 g m1 m2 l1 l2 : ℝ) : V4 :=
  let dc := Real.cos (θ1 - θ2)
  let ds := Real.sin (θ1 - θ2)
  let tdc := Real.cos (2 * (θ1 - θ2))
  let num1 := -g * (2 * m1 + m2) * Real.sin θ1
      - m2 * g * Real.sin (θ1 - 2 * θ2)
      - 2 * ds * m2 * (ω2 * ω2 * l2 + ω1 * ω1 * l1 * dc)
  let denom1 := l1 * (2 * m1 + m2 - m2 * tdc)
  let ωp1 := num1 / denom1
  let num2 := 2 * ds * (ω1 * ω1 * l1 * (m1 + m2) + g * (m1 + m2) * Real.cos θ1
      + ω2 * ω2 * l2 * m2 * dc)
  let denom2 := l2 * (2 * m1 + m2 - m2 * tdc)
  let ωp2 := num2 / denom2
  (ω1, ω2, ωp1, ωp2)

/-- The common factor of both denominators in deriv. -/
def denomFactor (m1 m2 θ1 θ2 : ℝ) : ℝ :=
  2 * m1 + m2 - m2 * Real.cos (2 * (θ1 - θ2))

/-- The System::system implementation for DoublePendulumSystem in
dbl_pendulum.rs: unpack the state vector, apply deriv at the held
parameters, repack. -/
def DoublePendulumSystem.system (sys : DoublePendulumSystem) (y : V4) : V4 :=
  deriv y.1 y.2.1 y.2.2.1 y.2.2.2 sys.g sys.m1 sys.m2 sys.l1 sys.l2

/-- Componentwise addition on V4. -/
def vadd (a b : V4) : V4 :=
  (a.1 + b.1, a.2.1 + b.2.1, a.2.2.1 + b.2.2.1, a.2.2.2 + b.2.2.2)

/-- Scalar multiplication on V4. -/
def vsmul (c : ℝ) (a : V4) : V4 :=
  (c * a.1, c * a.2.1, c * a.2.2.1, c * a.2.2.2)

/-- Modelled from the spec: the one-step advance performed by the external
crate ode_solvers (Rk4 built with start 0, end delta and step size delta,
so exactly one step), whose source is not part of this repository.  Per
the spec this is one classical fourth-order Runge-Kutta step: four slope
evaluations k1..k4 combined with Butcher weights 1/6, 1/3, 1/3, 1/6. -/
def rk4Step (f : V4 → V4) (y : V4) (h : ℝ) : V4 :=
  let k1 := f y
  let k2 := f (vadd y (vsmul (h / 2) k1))
  let k3 := f (vadd y (vsmul (h / 2) k2))
  let k4 := f (vadd y (vsmul h k3))
  vadd y (vadd (vsmul (h / 6) k1)
    (vadd (vsmul (h / 3) k2) (vadd (vsmul (h / 3) k3) (vsmul (h / 6) k4))))

/-- DoublePendulumSystem::step from dbl_pendulum.rs: run the solver for
one step of size delta from the current state and read the final output
vector back into a state. -/
def DoublePendulumSystem.step (sys : DoublePendulumSystem)
    (state : DoublePendulumState) (delta : ℝ) : DoublePendulumState :=
  let out := rk4Step sys.system state.as_mat delta
  ⟨out.1, out.2.1, out.2.2.1, out.2.2.2⟩

/-- Modelled from the spec: the single RK4 step as the spec states it,
y + dt/6 * (k1 + 2 k2 + 2 k3 + k4) with k1 = f y, k2 = f (y + dt/2 k1),
k3 = f (y + dt/2 k2), k4 = f (y + dt k3). -/
def rk4SpecStep (f : V4 → V4) (y : V4) (dt : ℝ) : V4 :=
  let k1 := f y
  let k2 := f (vadd y (vsmul (dt / 2) k1))
  let k3 := f (vadd y (vsmul (dt / 2) k2))
  let k4 := f (vadd y (vsmul dt k3))
  vadd y (vsmul (dt / 6)
    (vadd k1 (vadd (vsmul 2 k2) (vadd (vsmul 2 k3) k4))))

/-- Models the effect of one call of DoublePendulumSystem::step on the
pair of the receiver and the state: the receiver is taken by immutable
reference, so the call leaves it as it was and only produces the new
state. -/
def stepCall (sys : DoublePendulumSystem) (state : DoublePendulumState)
    (delta : ℝ) : DoublePendulumSystem × DoublePendulumState :=
  (sys, sys.step state delta)

/-- LEN_SCALE from main.rs, the length-to-pixel scale. -/
def LEN_SCALE : ℝ := 100

/-- The part of Model from main.rs that the display projections read. -/
structure Model where
  system : DoublePendulumSystem
  state : DoublePendulumState

/-- Model::top_pendulum_loc from main.rs: position of the top bob
relative to the pivot (the f32 narrowing of the source is modelled as
the identity on reals). -/
def Model.top_pendulum_loc (m : Model) : ℝ × ℝ :=
  let s := Real.sin m.state.θ1
  let c := Real.cos m.state.θ1
  (s * m.system.l1 * LEN_SCALE, c * m.system.l1 * LEN_SCALE)

/-- Model::bottom_pendulum_loc from main.rs: position of the bottom bob
relative to the top bob. -/
def Model.bottom_pendulum_loc (m : Model) : ℝ × ℝ :=
  let s := Real.sin m.state.θ2
  let c := Real.cos m.state.θ2
  (s * m.system.l2 * LEN_SCALE, c * m.system.l2 * LEN_SCALE)

/-- C1: deriv returns θ1 and θ2 rates equal to ω1 and ω2, and the two
angular accelerations of the standard double-pendulum Lagrangian
derivation, exactly as the spec writes them, as a pure function of its
nine arguments. -/
theorem deriv_matches_lagrangian (θ1 θ2 ω1 ω2 g m1 m2 l1 l2 : ℝ) :
    deriv θ1 θ2 ω1 ω2 g m1 m2 l1 l2 =
      (ω1, ω2,
        (-g * (2 * m1 + m2) * Real.sin θ1 - m2 * g * Real.sin (θ1 - 2 * θ2)
            - 2 * Real.sin (θ1 - θ2) * m2 *
              (ω2 ^ 2 * l2 + ω1 ^ 2 * l1 * Real.cos (θ1 - θ2))) /
          (l1 * (2 * m1 + m2 - m2 * Real.cos (2 * (θ1 - θ2)))),
        (2 * Real.sin (θ1 - θ2) *
            (ω1 ^ 2 * l1 * (m1 + m2) + g * (m1 + m2) * Real.cos θ1
              + ω2 ^ 2 * l2 * m2 * Real.cos (θ1 - θ2))) /
          (l2 * (2 * m1 + m2 - m2 * Real.cos (2 * (θ1 - θ2))))) := by
  simp only [deriv]
  refine Prod.ext rfl (Prod.ext rfl (Prod.ext ?_ ?_)) <;> ring_nf

/-- C2: step is exactly one classical RK4 step of size dt applied to the
derivative function at the held parameters, never subdivided: with
k1 = f y, k2 = f (y + dt/2 k1), k3 = f (y + dt/2 k2), k4 = f (y + dt k3),
the output state is y + dt/6 (k1 + 2 k2 + 2 k3 + k4). -/
theorem step_is_single_rk4 (sys : DoublePendulumSystem)
    (state : DoublePendulumState) (dt : ℝ) :
    (sys.step state dt).as_mat =
      rk4SpecStep sys.system state.as_mat dt := by
  have key : ∀ (f : V4 → V4) (y : V4) (h : ℝ),
      rk4Step f y h = rk4SpecStep f y h := by
    intro f y h
    simp only [rk4Step, rk4SpecStep]
    generalize f y = k1
    generalize f (vadd y (vsmul (h / 2) k1)) = k2
    generalize f (vadd y (vsmul (h / 2) k2)) = k3
    generalize f (vadd y (vsmul h k3)) = k4
    simp only [vadd, vsmul]
    refine Prod.ext ?_ (Prod.ext ?_ (Prod.ext ?_ ?_)) <;> ring
  exact key sys.system state.as_mat dt

/-- C5 helper: the denominator factor is bounded below by 2 m1. -/
theorem denomFactor_ge (m2 θ1 θ2 : ℝ) (m1 : ℝ) (hm2 : 0 ≤ m2) :
    2 * m1 ≤ denomFactor m1 m2 θ1 θ2 := by
  have h := Real.cos_le_one (2 * (θ1 - θ2))
  unfold denomFactor
  nlinarith [mul_le_mul_of_nonneg_left h hm2]

/-- C5: for m1 positive and m2 nonnegative the common denominator factor
2 m1 + m2 - m2 cos (2 (θ1 - θ2)) is at least 2 m1, in particular never
zero, and for positive lengths both full denominators of deriv are
nonzero. -/
theorem deriv_denominators_nonzero (m1 m2 l1 l2 θ1 θ2 : ℝ)
    (hm1 : 0 < m1) (hm2 : 0 ≤ m2) (hl1 : 0 < l1) (hl2 : 0 < l2) :
    2 * m1 ≤ denomFactor m1 m2 θ1 θ2 ∧
      denomFactor m1 m2 θ1 θ2 ≠ 0 ∧
      l1 * denomFactor m1 m2 θ1 θ2 ≠ 0 ∧
      l2 * denomFactor m1 m2 θ1 θ2 ≠ 0 := by
  have hge := denomFactor_ge m2 θ1 θ2 m1 hm2
  have hpos : 0 < denomFactor m1 m2 θ1 θ2 := lt_of_lt_of_le (by linarith) hge
  exact ⟨hge, ne_of_gt hpos, mul_ne_zero (ne_of_gt hl1) (ne_of_gt hpos),
    mul_ne_zero (ne_of_gt hl2) (ne_of_gt hpos)⟩

/-- C5 witness: the bound at concrete positive parameters and angles. -/
theorem deriv_denominators_nonzero_witness :
    2 * (1 : ℝ) ≤ denomFactor 1 1 2 2 ∧
      denomFactor 1 1 2 2 ≠ 0 ∧
      (1 : ℝ) * denomFactor 1 1 2 2 ≠ 0 ∧
      (1 : ℝ) * denomFactor 1 1 2 2 ≠ 0 :=
  deriv_denominators_nonzero 1 1 1 1 2 2 (by norm_num) (by norm_num)
    (by norm_num) (by norm_num)

/-- C6: step is deterministic and referentially transparent: calls with
equal states, equal time steps and equal parameters return equal output
states. -/
theorem step_deterministic (sys sys2 : DoublePendulumSystem)
    (s s2 : DoublePendulumState) (dt dt2 : ℝ)
    (hsys : sys = sys2) (hs : s = s2) (hdt : dt = dt2) :
    sys.step s dt = sys2.step s2 dt2 := by
  rw [hsys, hs, hdt]

/-- C6 witness: determinism applied at the default parameters, the
startup state and a concrete time step. -/
theorem step_deterministic_witness :
    (DoublePendulumSystem.mk 9.80665 1 1 1 1).step
        (DoublePendulumState.mk 2 2 0 0) 0.01 =
      (DoublePendulumSystem.mk 9.80665 1 1 1 1).step
        (DoublePendulumState.mk 2 2 0 0) 0.01 :=
  step_deterministic (DoublePendulumSystem.mk 9.80665 1 1 1 1)
    (DoublePendulumSystem.mk 9.80665 1 1 1 1)
    (DoublePendulumState.mk 2 2 0 0) (DoublePendulumState.mk 2 2 0 0)
    0.01 0.01 rfl rfl rfl

/-- C7: a step call never writes the five parameters: the receiver half
of the call effect is the unchanged system, and the call produces
nothing beyond the returned state. -/
theorem step_preserves_parameters (sys : DoublePendulumSystem)
    (s : DoublePendulumState) (dt : ℝ) :
    (stepCall sys s dt).1.g = sys.g ∧ (stepCall sys s dt).1.m1 = sys.m1 ∧
      (stepCall sys s dt).1.m2 = sys.m2 ∧ (stepCall sys s dt).1.l1 = sys.l1 ∧
      (stepCall sys s dt).1.l2 = sys.l2 ∧ (stepCall sys s dt).1 = sys :=
  ⟨rfl, rfl, rfl, rfl, rfl, rfl⟩

/-- C9: the display projections are the pure stateless formulas
(l1 sin θ1 S, l1 cos θ1 S) relative to the pivot and
(l2 sin θ2 S, l2 cos θ2 S) relative to the top joint, at the scale
S = LEN_SCALE = 100 used by the program. -/
theorem pendulum_locs_formula (m : Model) :
    m.top_pendulum_loc =
        (m.system.l1 * Real.sin m.state.θ1 * LEN_SCALE,
          m.system.l1 * Real.cos m.state.θ1 * LEN_SCALE) ∧
      m.bottom_pendulum_loc =
        (m.system.l2 * Real.sin m.state.θ2 * LEN_SCALE,
          m.system.l2 * Real.cos m.state.θ2 * LEN_SCALE) ∧
      LEN_SCALE = 100 := by
  refine ⟨?_, ?_, rfl⟩ <;>
    simp only [Model.top_pendulum_loc, Model.bottom_pendulum_loc] <;>
    refine Prod.ext ?_ ?_ <;> ring

/-- C3 counterexample: setting l2 = 0 does not reduce the angular
acceleration of the inner rod to the single-pendulum formula: at θ1 = 0,
θ2 = π/4, ω1 = ω2 = 0, g = m1 = m2 = l1 = 1, l2 = 0 the code yields 1/3
while the single-pendulum formula yields 0. -/
theorem deriv_l2_zero_not_single_pendulum :
    (deriv 0 (Real.pi / 4) 0 0 1 1 1 1 0).2.2.1 ≠
      -(1 / 1) * Real.sin 0 := by
  have h1 : (0 : ℝ) - 2 * (Real.pi / 4) = -(Real.pi / 2) := by ring
  have h2 : 2 * ((0 : ℝ) - Real.pi / 4) = -(Real.pi / 2) := by ring
  simp only [deriv, h1, h2, Real.sin_zero, Real.sin_neg, Real.cos_neg,
    Real.sin_pi_div_two, Real.cos_pi_div_two]
  norm_num

/-- C3 (amended): setting m2 = 0, with m1 positive, makes the angular
acceleration of the inner rod equal to the single-pendulum formula
-(g / l1) * sin θ1, for every θ1 and independent of θ2 and ω2. -/
theorem deriv_m2_zero_single_pendulum (θ1 θ2 ω1 ω2 g m1 l1 l2 : ℝ)
    (hm1 : 0 < m1) :
    (deriv θ1 θ2 ω1 ω2 g m1 0 l1 l2).2.2.1 = -(g / l1) * Real.sin θ1 := by
  have hm : m1 ≠ 0 := ne_of_gt hm1
  rcases eq_or_ne l1 0 with h | h
  · subst h
    simp [deriv]
  · simp only [deriv]
    field_simp
    ring

/-- C3 witness: the m2 = 0 reduction evaluated at concrete inputs. -/
theorem deriv_m2_zero_single_pendulum_witness :
    (deriv 1 2 3 4 9.80665 1 0 1 1).2.2.1 =
      -((9.80665 : ℝ) / 1) * Real.sin 1 :=
  deriv_m2_zero_single_pendulum 1 2 3 4 9.80665 1 1 1 (by norm_num)

/-- C4 counterexample: at the example scenario g = 9.80665, unit masses
and lengths, θ1 = θ2 = 2 and zero velocities, the angular acceleration
of the outer rod is not negative: the coupling factor sin (θ1 - θ2)
vanishes, so it is exactly zero. -/
theorem deriv_example_ω2dot_not_neg :
    ¬ ((deriv 2 2 0 0 9.80665 1 1 1 1).2.2.2 < 0) := by
  have h : (deriv 2 2 0 0 (9.80665 : ℝ) 1 1 1 1).2.2.2 = 0 := by
    simp only [deriv]
    norm_num [Real.sin_zero]
  rw [h]
  exact lt_irrefl 0

/-- The derivative at a configuration with both angles equal to 2 and
ω2 = 0, at the default parameters: the coupling factor sin (θ1 - θ2)
vanishes, so the result is (ω1, 0, -g sin 2, 0) whatever ω1 is. -/
lemma deriv_at_two_two (w : ℝ) :
    deriv 2 2 w 0 9.80665 1 1 1 1 = (w, 0, -9.80665 * Real.sin 2, 0) := by
  have h1 : (2 : ℝ) - 2 * 2 = -2 := by norm_num
  simp only [deriv, h1, sub_self, Real.sin_zero, Real.sin_neg,
    Real.cos_zero, mul_zero, zero_mul]
  refine Prod.ext rfl (Prod.ext rfl (Prod.ext ?_ ?_))
  · norm_num
    ring_nf
  · norm_num

/-- The second RK4 slope as a function of the step size. -/
def k2fun (sys : DoublePendulumSystem) (y : V4) (dt : ℝ) : V4 :=
  sys.system (vadd y (vsmul (dt / 2) (sys.system y)))

/-- The third RK4 slope as a function of the step size. -/
def k3fun (sys : DoublePendulumSystem) (y : V4) (dt : ℝ) : V4 :=
  sys.system (vadd y (vsmul (dt / 2) (k2fun sys y dt)))

/-- The fourth RK4 slope as a function of the step size. -/
def k4fun (sys : DoublePendulumSystem) (y : V4) (dt : ℝ) : V4 :=
  sys.system (vadd y (vsmul dt (k3fun sys y dt)))

lemma vadd_vsmul_cancel (y k : V4) (c : ℝ) (hc : c = 0) :
    vadd y (vsmul c k) = y := by
  subst hc
  simp [vadd, vsmul]

lemma k2fun_zero (sys : DoublePendulumSystem) (y : V4) :
    k2fun sys y 0 = sys.system y := by
  show sys.system (vadd y (vsmul ((0 : ℝ) / 2) (sys.system y))) = sys.system y
  rw [vadd_vsmul_cancel _ _ _ (by norm_num)]

lemma k3fun_zero (sys : DoublePendulumSystem) (y : V4) :
    k3fun sys y 0 = sys.system y := by
  show sys.system (vadd y (vsmul ((0 : ℝ) / 2) (k2fun sys y 0))) = sys.system y
  rw [vadd_vsmul_cancel _ _ _ (by norm_num)]

lemma k4fun_zero (sys : DoublePendulumSystem) (y : V4) :
    k4fun sys y 0 = sys.system y := by
  show sys.system (vadd y (vsmul (0 : ℝ) (k3fun sys y 0))) = sys.system y
  rw [vadd_vsmul_cancel _ _ _ rfl]

/-- All four components of the derivative, composed with differentiable
argument functions, are differentiable: the first two are the velocity
arguments themselves, the last two are quotients of smooth expressions
by denominators that never vanish for a positive m1 and nonnegative m2
and nonzero lengths. -/
lemma differentiableAt_system_comp (sys : DoublePendulumSystem)
    (hm1 : 0 < sys.m1) (hm2 : 0 ≤ sys.m2)
    (hl1 : sys.l1 ≠ 0) (hl2 : sys.l2 ≠ 0)
    (a b c d : ℝ → ℝ) (t0 : ℝ)
    (ha : DifferentiableAt ℝ a t0) (hb : DifferentiableAt ℝ b t0)
    (hc : DifferentiableAt ℝ c t0) (hd : DifferentiableAt ℝ d t0) :
    DifferentiableAt ℝ (fun t => (sys.system (a t, b t, c t, d t)).1) t0 ∧
      DifferentiableAt ℝ (fun t => (sys.system (a t, b t, c t, d t)).2.1) t0 ∧
      DifferentiableAt ℝ
        (fun t => (sys.system (a t, b t, c t, d t)).2.2.1) t0 ∧
      DifferentiableAt ℝ
        (fun t => (sys.system (a t, b t, c t, d t)).2.2.2) t0 := by
  have hfac : ∀ x z : ℝ,
      (0 : ℝ) < 2 * sys.m1 + sys.m2 - sys.m2 * Real.cos (2 * (x - z)) := by
    intro x z
    have h := denomFactor_ge sys.m2 x z sys.m1 hm2
    simp only [denomFactor] at h
    linarith
  refine ⟨?_, ?_, ?_, ?_⟩
  · have e : ∀ t, (sys.system (a t, b t, c t, d t)).1 = c t := fun t => rfl
    simp only [e]
    exact hc
  · have e : ∀ t, (sys.system (a t, b t, c t, d t)).2.1 = d t := fun t => rfl
    simp only [e]
    exact hd
  · have e : ∀ t, (sys.system (a t, b t, c t, d t)).2.2.1 =
        (-sys.g * (2 * sys.m1 + sys.m2) * Real.sin (a t)
            - sys.m2 * sys.g * Real.sin (a t - 2 * b t)
            - 2 * Real.sin (a t - b t) * sys.m2 *
              (d t * d t * sys.l2 + c t * c t * sys.l1 *
                Real.cos (a t - b t))) /
          (sys.l1 * (2 * sys.m1 + sys.m2
            - sys.m2 * Real.cos (2 * (a t - b t)))) := fun t => rfl
    simp only [e]
    apply DifferentiableAt.div
    · fun_prop
    · fun_prop
    · exact mul_ne_zero hl1 (ne_of_gt (hfac _ _))
  · have e : ∀ t, (sys.system (a t, b t, c t, d t)).2.2.2 =
        (2 * Real.sin (a t - b t) *
            (c t * c t * sys.l1 * (sys.m1 + sys.m2)
              + sys.g * (sys.m1 + sys.m2) * Real.cos (a t)
              + d t * d t * sys.l2 * sys.m2 * Real.cos (a t - b t))) /
          (sys.l2 * (2 * sys.m1 + sys.m2
            - sys.m2 * Real.cos (2 * (a t - b t)))) := fun t => rfl
    simp only [e]
    apply DifferentiableAt.div
    · fun_prop
    · fun_prop
    · exact mul_ne_zero hl2 (ne_of_gt (hfac _ _))

lemma differentiableAt_k2fun (sys : DoublePendulumSystem) (y : V4)
    (hm1 : 0 < sys.m1) (hm2 : 0 ≤ sys.m2)
    (hl1 : sys.l1 ≠ 0) (hl2 : sys.l2 ≠ 0) (t0 : ℝ) :
    DifferentiableAt ℝ (fun t => (k2fun sys y t).1) t0 ∧
      DifferentiableAt ℝ (fun t => (k2fun sys y t).2.1) t0 ∧
      DifferentiableAt ℝ (fun t => (k2fun sys y t).2.2.1) t0 ∧
      DifferentiableAt ℝ (fun t => (k2fun sys y t).2.2.2) t0 := by
  have e : ∀ t : ℝ, k2fun sys y t = sys.system
      (y.1 + t / 2 * (sys.system y).1,
        y.2.1 + t / 2 * (sys.system y).2.1,
        y.2.2.1 + t / 2 * (sys.system y).2.2.1,
        y.2.2.2 + t / 2 * (sys.system y).2.2.2) := fun t => rfl
  simp only [e]
  exact differentiableAt_system_comp sys hm1 hm2 hl1 hl2 _ _ _ _ t0
    ((differentiableAt_const _).add
      ((differentiableAt_id'.div_const 2).mul (differentiableAt_const _)))
    ((differentiableAt_const _).add
      ((differentiableAt_id'.div_const 2).mul (differentiableAt_const _)))
    ((differentiableAt_const _).add
      ((differentiableAt_id'.div_const 2).mul (differentiableAt_const _)))
    ((differentiableAt_const _).add
      ((differentiableAt_id'.div_const 2).mul (differentiableAt_const _)))

lemma differentiableAt_k3fun (sys : DoublePendulumSystem) (y : V4)
    (hm1 : 0 < sys.m1) (hm2 : 0 ≤ sys.m2)
    (hl1 : sys.l1 ≠ 0) (hl2 : sys.l2 ≠ 0) (t0 : ℝ) :
    DifferentiableAt ℝ (fun t => (k3fun sys y t).1) t0 ∧
      DifferentiableAt ℝ (fun t => (k3fun sys y t).2.1) t0 ∧
      DifferentiableAt ℝ (fun t => (k3fun sys y t).2.2.1) t0 ∧
      DifferentiableAt ℝ (fun t => (k3fun sys y t).2.2.2) t0 := by
  obtain ⟨h1, h2, h3, h4⟩ := differentiableAt_k2fun sys y hm1 hm2 hl1 hl2 t0
  have e : ∀ t : ℝ, k3fun sys y t = sys.system
      (y.1 + t / 2 * (k2fun sys y t).1,
        y.2.1 + t / 2 * (k2fun sys y t).2.1,
        y.2.2.1 + t / 2 * (k2fun sys y t).2.2.1,
        y.2.2.2 + t / 2 * (k2fun sys y t).2.2.2) := fun t => rfl
  simp only [e]
  exact differentiableAt_system_comp sys hm1 hm2 hl1 hl2 _ _ _ _ t0
    ((differentiableAt_const _).add ((differentiableAt_id'.div_const 2).mul h1))
    ((differentiableAt_const _).add ((differentiableAt_id'.div_const 2).mul h2))
    ((differentiableAt_const _).add ((differentiableAt_id'.div_const 2).mul h3))
    ((differentiableAt_const _).add ((differentiableAt_id'.div_const 2).mul h4))

lemma differentiableAt_k4fun (sys : DoublePendulumSystem) (y : V4)
    (hm1 : 0 < sys.m1) (hm2 : 0 ≤ sys.m2)
    (hl1 : sys.l1 ≠ 0) (hl2 : sys.l2 ≠ 0) (t0 : ℝ) :
    DifferentiableAt ℝ (fun t => (k4fun sys y t).1) t0 ∧
      DifferentiableAt ℝ (fun t => (k4fun sys y t).2.1) t0 ∧
      DifferentiableAt ℝ (fun t => (k4fun sys y t).2.2.1) t0 ∧
      DifferentiableAt ℝ (fun t => (k4fun sys y t).2.2.2) t0 := by
  obtain ⟨h1, h2, h3, h4⟩ := differentiableAt_k3fun sys y hm1 hm2 hl1 hl2 t0
  have e : ∀ t : ℝ, k4fun sys y t = sys.system
      (y.1 + t * (k3fun sys y t).1,
        y.2.1 + t * (k3fun sys y t).2.1,
        y.2.2.1 + t * (k3fun sys y t).2.2.1,
        y.2.2.2 + t * (k3fun sys y t).2.2.2) := fun t => rfl
  simp only [e]
  exact differentiableAt_system_comp sys hm1 hm2 hl1 hl2 _ _ _ _ t0
    ((differentiableAt_const _).add (differentiableAt_id'.mul h1))
    ((differentiableAt_const _).add (differentiableAt_id'.mul h2))
    ((differentiableAt_const _).add (differentiableAt_id'.mul h3))
    ((differentiableAt_const _).add (differentiableAt_id'.mul h4))

lemma mul_isBigO_sq (w : ℝ → ℝ) (hw : DifferentiableAt ℝ w 0)
    (h0 : w 0 = 0) (c : ℝ) :
    (fun dt => c * (dt * w dt)) =O[nhds (0 : ℝ)] (fun dt => dt ^ 2) := by
  have h1 : (fun dt => w dt) =O[nhds (0 : ℝ)] (fun dt => dt) := by
    simpa [h0] using hw.isBigO_sub
  have h2 : (fun dt : ℝ => dt * w dt) =O[nhds (0 : ℝ)]
      (fun dt => dt * dt) :=
    (Asymptotics.isBigO_refl (fun dt : ℝ => dt) _).mul h1
  have h3 := h2.const_mul_left c
  simpa [pow_two] using h3

lemma step_θ1_eq (sys : DoublePendulumSystem) (s : DoublePendulumState)
    (dt : ℝ) :
    (sys.step s dt).θ1 = s.θ1 + (dt / 6 * (sys.system s.as_mat).1
      + (dt / 3 * (k2fun sys s.as_mat dt).1
        + (dt / 3 * (k3fun sys s.as_mat dt).1
          + dt / 6 * (k4fun sys s.as_mat dt).1))) := rfl

lemma step_θ2_eq (sys : DoublePendulumSystem) (s : DoublePendulumState)
    (dt : ℝ) :
    (sys.step s dt).θ2 = s.θ2 + (dt / 6 * (sys.system s.as_mat).2.1
      + (dt / 3 * (k2fun sys s.as_mat dt).2.1
        + (dt / 3 * (k3fun sys s.as_mat dt).2.1
          + dt / 6 * (k4fun sys s.as_mat dt).2.1))) := rfl

lemma step_ω1_eq (sys : DoublePendulumSystem) (s : DoublePendulumState)
    (dt : ℝ) :
    (sys.step s dt).ω1 = s.ω1 + (dt / 6 * (sys.system s.as_mat).2.2.1
      + (dt / 3 * (k2fun sys s.as_mat dt).2.2.1
        + (dt / 3 * (k3fun sys s.as_mat dt).2.2.1
          + dt / 6 * (k4fun sys s.as_mat dt).2.2.1))) := rfl

lemma step_ω2_eq (sys : DoublePendulumSystem) (s : DoublePendulumState)
    (dt : ℝ) :
    (sys.step s dt).ω2 = s.ω2 + (dt / 6 * (sys.system s.as_mat).2.2.2
      + (dt / 3 * (k2fun sys s.as_mat dt).2.2.2
        + (dt / 3 * (k3fun sys s.as_mat dt).2.2.2
          + dt / 6 * (k4fun sys s.as_mat dt).2.2.2))) := rfl

/-- The third output of deriv written as an explicit quotient. -/
lemma deriv_p3 (θ1 θ2 ω1 ω2 g m1 m2 l1 l2 : ℝ) :
    (deriv θ1 θ2 ω1 ω2 g m1 m2 l1 l2).2.2.1 =
      (-g * (2 * m1 + m2) * Real.sin θ1
          - m2 * g * Real.sin (θ1 - 2 * θ2)
          - 2 * Real.sin (θ1 - θ2) * m2 *
            (ω2 * ω2 * l2 + ω1 * ω1 * l1 * Real.cos (θ1 - θ2))) /
        (l1 * (2 * m1 + m2 - m2 * Real.cos (2 * (θ1 - θ2)))) := rfl

/-- The fourth output of deriv written as an explicit quotient. -/
lemma deriv_p4 (θ1 θ2 ω1 ω2 g m1 m2 l1 l2 : ℝ) :
    (deriv θ1 θ2 ω1 ω2 g m1 m2 l1 l2).2.2.2 =
      (2 * Real.sin (θ1 - θ2) *
          (ω1 * ω1 * l1 * (m1 + m2) + g * (m1 + m2) * Real.cos θ1
            + ω2 * ω2 * l2 * m2 * Real.cos (θ1 - θ2))) /
        (l2 * (2 * m1 + m2 - m2 * Real.cos (2 * (θ1 - θ2)))) := rfl

/-- Two-sided numeric bounds on sin 1 from the quartic Taylor bound. -/
lemma sin_one_bounds : (75 / 96 : ℝ) ≤ Real.sin 1 ∧ Real.sin 1 ≤ 85 / 96 := by
  have h := @Real.sin_bound 1 (by norm_num)
  norm_num at h
  obtain ⟨h1, h2⟩ := abs_le.mp h
  constructor <;> linarith

/-- Two-sided numeric bounds on cos 1 from the quartic Taylor bound. -/
lemma cos_one_bounds : (43 / 96 : ℝ) ≤ Real.cos 1 ∧ Real.cos 1 ≤ 53 / 96 := by
  have h := @Real.cos_bound 1 (by norm_num)
  norm_num at h
  obtain ⟨h1, h2⟩ := abs_le.mp h
  constructor <;> linarith

/-- Two-sided numeric bounds on sin 2 via the double angle formula. -/
lemma sin_two_bounds : (0.69 : ℝ) ≤ Real.sin 2 ∧ Real.sin 2 ≤ 0.98 := by
  obtain ⟨hs1, hs2⟩ := sin_one_bounds
  obtain ⟨hc1, hc2⟩ := cos_one_bounds
  have h := Real.sin_two_mul 1
  norm_num at h
  rw [h]
  constructor <;> nlinarith

/-- Two-sided numeric bounds on cos 2 via the double angle formula. -/
lemma cos_two_bounds : (-0.6 : ℝ) ≤ Real.cos 2 ∧ Real.cos 2 ≤ -0.39 := by
  obtain ⟨hc1, hc2⟩ := cos_one_bounds
  have h := Real.cos_two_mul 1
  norm_num at h
  rw [h]
  constructor <;> nlinarith

/-- The sine function is 1-Lipschitz. -/
lemma abs_sin_sub_le (a b : ℝ) : |Real.sin a - Real.sin b| ≤ |a - b| := by
  rw [Real.sin_sub_sin]
  have h1 : |Real.sin ((a - b) / 2)| ≤ |(a - b) / 2| := Real.abs_sin_le_abs
  have h2 : |Real.cos ((a + b) / 2)| ≤ 1 := Real.abs_cos_le_one _
  have h3 : |(2 : ℝ) * Real.sin ((a - b) / 2) * Real.cos ((a + b) / 2)|
      = 2 * |Real.sin ((a - b) / 2)| * |Real.cos ((a + b) / 2)| := by
    rw [abs_mul, abs_mul]
    norm_num
  rw [h3]
  have h4 : |(a - b) / 2| = |a - b| / 2 := by
    rw [abs_div]
    norm_num
  nlinarith [abs_nonneg (Real.sin ((a - b) / 2)), abs_nonneg (a - b),
    abs_nonneg (Real.cos ((a + b) / 2))]

/-- The cosine function is 1-Lipschitz. -/
lemma abs_cos_sub_le (a b : ℝ) : |Real.cos a - Real.cos b| ≤ |a - b| := by
  rw [Real.cos_sub_cos]
  have h1 : |Real.sin ((a - b) / 2)| ≤ |(a - b) / 2| := Real.abs_sin_le_abs
  have h2 : |Real.sin ((a + b) / 2)| ≤ 1 := Real.abs_sin_le_one _
  have h3 : |(-2 : ℝ) * Real.sin ((a + b) / 2) * Real.sin ((a - b) / 2)|
      = 2 * |Real.sin ((a + b) / 2)| * |Real.sin ((a - b) / 2)| := by
    rw [abs_mul, abs_mul]
    norm_num
  rw [h3]
  have h4 : |(a - b) / 2| = |a - b| / 2 := by
    rw [abs_div]
    norm_num
  nlinarith [abs_nonneg (Real.sin ((a - b) / 2)), abs_nonneg (a - b),
    abs_nonneg (Real.sin ((a + b) / 2))]

set_option maxHeartbeats 800000 in
/-- Interval arithmetic core for the perturbed derivative: with the trig
values abstracted and bounded, the first angular acceleration lies in
[-11.1, -5.3] and the second in (0, 0.006]. -/
lemma pert_arith (Sa Sm Ca Se Ce Cd w u : ℝ)
    (hSal : 0.6895 ≤ Sa) (hSau : Sa ≤ 0.9805)
    (hSml : 0.6895 ≤ Sm) (hSmu : Sm ≤ 0.9805)
    (hCal : -0.6005 ≤ Ca) (hCau : Ca ≤ -0.3895)
    (hSel : -0.0005 ≤ Se) (hSeneg : Se < 0)
    (hCe1 : -1 ≤ Ce) (hCe2 : Ce ≤ 1)
    (hCdu : Cd ≤ 1) (hCdl : 0.9999994 ≤ Cd)
    (hw2 : w * w ≤ 0.0144) (hu2 : u * u ≤ 0.00000001) :
    (-11.1 ≤ (-9.80665 * (2 * 1 + 1) * Sa - 1 * 9.80665 * -Sm
          - 2 * Se * 1 * (u * u * 1 + w * w * 1 * Ce)) /
        (1 * (2 * 1 + 1 - 1 * Cd)) ∧
      (-9.80665 * (2 * 1 + 1) * Sa - 1 * 9.80665 * -Sm
          - 2 * Se * 1 * (u * u * 1 + w * w * 1 * Ce)) /
        (1 * (2 * 1 + 1 - 1 * Cd)) ≤ -5.3) ∧
      (0 < (2 * Se * (w * w * 1 * (1 + 1) + 9.80665 * (1 + 1) * Ca
            + u * u * 1 * 1 * Ce)) /
          (1 * (2 * 1 + 1 - 1 * Cd)) ∧
        (2 * Se * (w * w * 1 * (1 + 1) + 9.80665 * (1 + 1) * Ca
            + u * u * 1 * 1 * Ce)) /
          (1 * (2 * 1 + 1 - 1 * Cd)) ≤ 0.006) := by
  have hw2n : 0 ≤ w * w := mul_self_nonneg w
  have hu2n : 0 ≤ u * u := mul_self_nonneg u
  have hD : (0 : ℝ) < 1 * (2 * 1 + 1 - 1 * Cd) := by nlinarith
  have hD2 : (2 : ℝ) ≤ 1 * (2 * 1 + 1 - 1 * Cd) := by nlinarith
  have hDu : 1 * (2 * 1 + 1 - 1 * Cd) ≤ 2.0000006 := by nlinarith
  have hXu : u * u * 1 + w * w * 1 * Ce ≤ 0.015 := by
    nlinarith [mul_nonneg hw2n (by linarith : (0 : ℝ) ≤ 1 - Ce)]
  have hXl : -0.015 ≤ u * u * 1 + w * w * 1 * Ce := by
    nlinarith [mul_nonneg hw2n (by linarith : (0 : ℝ) ≤ Ce + 1)]
  have hTu : 2 * Se * 1 * (u * u * 1 + w * w * 1 * Ce) ≤ 0.000015 := by
    nlinarith [mul_nonneg (by linarith : (0 : ℝ) ≤ -Se)
      (by linarith : (0 : ℝ) ≤ u * u * 1 + w * w * 1 * Ce + 0.015)]
  have hTl : -0.000015 ≤ 2 * Se * 1 * (u * u * 1 + w * w * 1 * Ce) := by
    nlinarith [mul_nonneg (by linarith : (0 : ℝ) ≤ -Se)
      (by linarith : (0 : ℝ) ≤ 0.015 - (u * u * 1 + w * w * 1 * Ce))]
  have hBu : w * w * 1 * (1 + 1) + 9.80665 * (1 + 1) * Ca
      + u * u * 1 * 1 * Ce ≤ -7.6 := by
    nlinarith [mul_nonneg hu2n (by linarith : (0 : ℝ) ≤ 1 - Ce)]
  have hBl : -11.78 ≤ w * w * 1 * (1 + 1) + 9.80665 * (1 + 1) * Ca
      + u * u * 1 * 1 * Ce := by
    nlinarith [mul_nonneg hu2n (by linarith : (0 : ℝ) ≤ Ce + 1)]
  refine ⟨⟨?_, ?_⟩, ?_, ?_⟩
  · rw [le_div_iff₀ hD]
    nlinarith
  · rw [div_le_iff₀ hD]
    nlinarith
  · apply div_pos ?_ hD
    nlinarith [mul_pos (by linarith : (0 : ℝ) < -Se)
      (by nlinarith [mul_nonneg hu2n (by linarith : (0 : ℝ) ≤ Ce + 1)] :
        (0 : ℝ) < -(w * w * 1 * (1 + 1) + 9.80665 * (1 + 1) * Ca
          + u * u * 1 * 1 * Ce))]
  · rw [div_le_iff₀ hD]
    nlinarith [mul_nonneg (by linarith : (0 : ℝ) ≤ 0.0005 + Se)
      (by linarith : (0 : ℝ) ≤ -(w * w * 1 * (1 + 1)
        + 9.80665 * (1 + 1) * Ca + u * u * 1 * 1 * Ce))]

set_option maxHeartbeats 800000 in
/-- Bounds on both angular accelerations of deriv at default parameters,
at a configuration perturbed from θ1 = θ2 = 2 by a small negative angle
offset e and small velocities w and u, as the RK4 inner stages of the
example scenario produce. -/
lemma deriv_pert_bounds (e w u : ℝ) (he1 : -0.0005 ≤ e) (he2 : e < 0)
    (hw : |w| ≤ 0.12) (hu : |u| ≤ 0.0001) :
    (-11.1 ≤ (deriv (2 + e) 2 w u 9.80665 1 1 1 1).2.2.1 ∧
        (deriv (2 + e) 2 w u 9.80665 1 1 1 1).2.2.1 ≤ -5.3) ∧
      (0 < (deriv (2 + e) 2 w u 9.80665 1 1 1 1).2.2.2 ∧
        (deriv (2 + e) 2 w u 9.80665 1 1 1 1).2.2.2 ≤ 0.006) := by
  rw [deriv_p3, deriv_p4]
  have ea : (2 : ℝ) + e - 2 * 2 = -(2 - e) := by ring
  have eb : (2 : ℝ) + e - 2 = e := by ring
  rw [ea, eb, Real.sin_neg]
  obtain ⟨hs2l, hs2u⟩ := sin_two_bounds
  obtain ⟨hc2l, hc2u⟩ := cos_two_bounds
  have habse : |e| ≤ 0.0005 := abs_le.mpr ⟨he1, by linarith⟩
  obtain ⟨habse1, habse2⟩ := abs_le.mp habse
  have hSa : |Real.sin (2 + e) - Real.sin 2| ≤ |e| := by
    have h := abs_sin_sub_le (2 + e) 2
    rwa [show (2 : ℝ) + e - 2 = e from by ring] at h
  have hSb : |Real.sin (2 - e) - Real.sin 2| ≤ |e| := by
    have h := abs_sin_sub_le (2 - e) 2
    rwa [show (2 : ℝ) - e - 2 = -e from by ring, abs_neg] at h
  have hCa : |Real.cos (2 + e) - Real.cos 2| ≤ |e| := by
    have h := abs_cos_sub_le (2 + e) 2
    rwa [show (2 : ℝ) + e - 2 = e from by ring] at h
  obtain ⟨hSa1, hSa2⟩ := abs_le.mp hSa
  obtain ⟨hSb1, hSb2⟩ := abs_le.mp hSb
  obtain ⟨hCa1, hCa2⟩ := abs_le.mp hCa
  obtain ⟨hSe1, hSe2⟩ := abs_le.mp (@Real.abs_sin_le_abs e)
  have hSeneg : Real.sin e < 0 := by
    apply Real.sin_neg_of_neg_of_neg_pi_lt he2
    have := Real.pi_gt_three
    linarith
  obtain ⟨hCe1, hCe2⟩ := abs_le.mp (Real.abs_cos_le_one e)
  have hCdu : Real.cos (2 * e) ≤ 1 := Real.cos_le_one _
  have hCdl : (0.9999994 : ℝ) ≤ Real.cos (2 * e) := by
    have h := @Real.one_sub_sq_div_two_le_cos (2 * e)
    nlinarith [mul_nonneg (by linarith : (0 : ℝ) ≤ 0.0005 - e)
      (by linarith : (0 : ℝ) ≤ e + 0.0005)]
  obtain ⟨hwa, hwb⟩ := abs_le.mp hw
  obtain ⟨hua, hub⟩ := abs_le.mp hu
  have hw2 : w * w ≤ 0.0144 := by
    nlinarith [mul_nonneg (by linarith : (0 : ℝ) ≤ 0.12 - w)
      (by linarith : (0 : ℝ) ≤ w + 0.12)]
  have hu2 : u * u ≤ 0.00000001 := by
    nlinarith [mul_nonneg (by linarith : (0 : ℝ) ≤ 0.0001 - u)
      (by linarith : (0 : ℝ) ≤ u + 0.0001)]
  exact pert_arith (Real.sin (2 + e)) (Real.sin (2 - e)) (Real.cos (2 + e))
    (Real.sin e) (Real.cos e) (Real.cos (2 * e)) w u
    (by linarith) (by linarith) (by linarith) (by linarith)
    (by linarith) (by linarith) (by linarith) hSeneg
    hCe1 hCe2 hCdu hCdl hw2 hu2

/-- Stage 1 of the example scenario: the slope at the initial state. -/
lemma stage1 : (DoublePendulumSystem.mk 9.80665 1 1 1 1).system
    ((2 : ℝ), (2 : ℝ), (0 : ℝ), (0 : ℝ)) =
      (0, 0, -9.80665 * Real.sin 2, 0) :=
  deriv_at_two_two 0

/-- Stage 2 of the example scenario: the angles are still equal, so the
slope keeps the same angular accelerations. -/
lemma stage2 : k2fun (DoublePendulumSystem.mk 9.80665 1 1 1 1)
    ((2 : ℝ), (2 : ℝ), (0 : ℝ), (0 : ℝ)) 0.01 =
      (0.01 / 2 * (-9.80665 * Real.sin 2), 0, -9.80665 * Real.sin 2, 0) := by
  show (DoublePendulumSystem.mk 9.80665 1 1 1 1).system
      (vadd ((2 : ℝ), (2 : ℝ), (0 : ℝ), (0 : ℝ))
        (vsmul (0.01 / 2)
          ((DoublePendulumSystem.mk 9.80665 1 1 1 1).system
            ((2 : ℝ), (2 : ℝ), (0 : ℝ), (0 : ℝ))))) = _
  rw [stage1]
  have harg : vadd ((2 : ℝ), (2 : ℝ), (0 : ℝ), (0 : ℝ))
      (vsmul (0.01 / 2) ((0 : ℝ), (0 : ℝ), -9.80665 * Real.sin 2, (0 : ℝ)))
      = (2, 2, 0.01 / 2 * (-9.80665 * Real.sin 2), 0) := by
    simp [vadd, vsmul]
  rw [harg]
  exact deriv_at_two_two _

/-- Stage 3 of the example scenario, reduced to the derivative at a
slightly perturbed inner angle. -/
lemma stage3 : k3fun (DoublePendulumSystem.mk 9.80665 1 1 1 1)
    ((2 : ℝ), (2 : ℝ), (0 : ℝ), (0 : ℝ)) 0.01 =
      (DoublePendulumSystem.mk 9.80665 1 1 1 1).system
        (2 + 0.01 / 2 * (0.01 / 2 * (-9.80665 * Real.sin 2)), 2,
          0.01 / 2 * (-9.80665 * Real.sin 2), 0) := by
  show (DoublePendulumSystem.mk 9.80665 1 1 1 1).system
      (vadd ((2 : ℝ), (2 : ℝ), (0 : ℝ), (0 : ℝ))
        (vsmul (0.01 / 2)
          (k2fun (DoublePendulumSystem.mk 9.80665 1 1 1 1)
            ((2 : ℝ), (2 : ℝ), (0 : ℝ), (0 : ℝ)) 0.01))) = _
  rw [stage2]
  congr 1
  simp [vadd, vsmul]

lemma stage3_fst : (k3fun (DoublePendulumSystem.mk 9.80665 1 1 1 1)
    ((2 : ℝ), (2 : ℝ), (0 : ℝ), (0 : ℝ)) 0.01).1 =
      0.01 / 2 * (-9.80665 * Real.sin 2) := by
  rw [stage3]
  rfl

lemma stage3_snd : (k3fun (DoublePendulumSystem.mk 9.80665 1 1 1 1)
    ((2 : ℝ), (2 : ℝ), (0 : ℝ), (0 : ℝ)) 0.01).2.1 = 0 := by
  rw [stage3]
  rfl

/-- Stage 4 of the example scenario, reduced to the derivative at a
slightly perturbed inner angle and small stage-3 velocities. -/
lemma stage4 : k4fun (DoublePendulumSystem.mk 9.80665 1 1 1 1)
    ((2 : ℝ), (2 : ℝ), (0 : ℝ), (0 : ℝ)) 0.01 =
      (DoublePendulumSystem.mk 9.80665 1 1 1 1).system
        (2 + 0.01 * (0.01 / 2 * (-9.80665 * Real.sin 2)), 2,
          0.01 * (k3fun (DoublePendulumSystem.mk 9.80665 1 1 1 1)
            ((2 : ℝ), (2 : ℝ), (0 : ℝ), (0 : ℝ)) 0.01).2.2.1,
          0.01 * (k3fun (DoublePendulumSystem.mk 9.80665 1 1 1 1)
            ((2 : ℝ), (2 : ℝ), (0 : ℝ), (0 : ℝ)) 0.01).2.2.2) := by
  show (DoublePendulumSystem.mk 9.80665 1 1 1 1).system
      (vadd ((2 : ℝ), (2 : ℝ), (0 : ℝ), (0 : ℝ))
        (vsmul 0.01
          (k3fun (DoublePendulumSystem.mk 9.80665 1 1 1 1)
            ((2 : ℝ), (2 : ℝ), (0 : ℝ), (0 : ℝ)) 0.01))) = _
  have hexp : vadd ((2 : ℝ), (2 : ℝ), (0 : ℝ), (0 : ℝ))
      (vsmul 0.01 (k3fun (DoublePendulumSystem.mk 9.80665 1 1 1 1)
        ((2 : ℝ), (2 : ℝ), (0 : ℝ), (0 : ℝ)) 0.01)) =
      (2 + 0.01 * (k3fun (DoublePendulumSystem.mk 9.80665 1 1 1 1)
          ((2 : ℝ), (2 : ℝ), (0 : ℝ), (0 : ℝ)) 0.01).1,
        2 + 0.01 * (k3fun (DoublePendulumSystem.mk 9.80665 1 1 1 1)
          ((2 : ℝ), (2 : ℝ), (0 : ℝ), (0 : ℝ)) 0.01).2.1,
        0.01 * (k3fun (DoublePendulumSystem.mk 9.80665 1 1 1 1)
          ((2 : ℝ), (2 : ℝ), (0 : ℝ), (0 : ℝ)) 0.01).2.2.1,
        0.01 * (k3fun (DoublePendulumSystem.mk 9.80665 1 1 1 1)
          ((2 : ℝ), (2 : ℝ), (0 : ℝ), (0 : ℝ)) 0.01).2.2.2) := by
    simp [vadd, vsmul]
  rw [hexp, stage3_fst, stage3_snd]
  norm_num

set_option maxHeartbeats 2000000 in
/-- Quantitative behavior of one step of size 0.01 from the example
scenario: the inner angle decreases, the outer angle increases slightly,
the inner angular velocity lands in (-0.15, -0.05), on the order of
g dt, and the outer angular velocity is positive yet below 0.0001. -/
lemma step_example_bounds :
    ((DoublePendulumSystem.mk 9.80665 1 1 1 1).step
        (DoublePendulumState.mk 2 2 0 0) 0.01).θ1 < 2 ∧
      2 < ((DoublePendulumSystem.mk 9.80665 1 1 1 1).step
        (DoublePendulumState.mk 2 2 0 0) 0.01).θ2 ∧
      (-0.15 < ((DoublePendulumSystem.mk 9.80665 1 1 1 1).step
          (DoublePendulumState.mk 2 2 0 0) 0.01).ω1 ∧
        ((DoublePendulumSystem.mk 9.80665 1 1 1 1).step
          (DoublePendulumState.mk 2 2 0 0) 0.01).ω1 < -0.05) ∧
      (0 < ((DoublePendulumSystem.mk 9.80665 1 1 1 1).step
          (DoublePendulumState.mk 2 2 0 0) 0.01).ω2 ∧
        ((DoublePendulumSystem.mk 9.80665 1 1 1 1).step
          (DoublePendulumState.mk 2 2 0 0) 0.01).ω2 < 0.0001) := by
  obtain ⟨hs2l, hs2u⟩ := sin_two_bounds
  have he3l : (-0.0005 : ℝ) ≤
      0.01 / 2 * (0.01 / 2 * (-9.80665 * Real.sin 2)) := by nlinarith
  have he3u : 0.01 / 2 * (0.01 / 2 * (-9.80665 * Real.sin 2)) < 0 := by
    nlinarith
  have hw3 : |0.01 / 2 * (-9.80665 * Real.sin 2)| ≤ 0.12 :=
    abs_le.mpr ⟨by nlinarith, by nlinarith⟩
  have h3 := deriv_pert_bounds
    (0.01 / 2 * (0.01 / 2 * (-9.80665 * Real.sin 2)))
    (0.01 / 2 * (-9.80665 * Real.sin 2)) 0 he3l he3u hw3 (by norm_num)
  have h3a : -11.1 ≤ (k3fun (DoublePendulumSystem.mk 9.80665 1 1 1 1)
      ((2 : ℝ), (2 : ℝ), (0 : ℝ), (0 : ℝ)) 0.01).2.2.1 ∧
      (k3fun (DoublePendulumSystem.mk 9.80665 1 1 1 1)
        ((2 : ℝ), (2 : ℝ), (0 : ℝ), (0 : ℝ)) 0.01).2.2.1 ≤ -5.3 := by
    rw [stage3]
    exact h3.1
  have h3b : 0 < (k3fun (DoublePendulumSystem.mk 9.80665 1 1 1 1)
      ((2 : ℝ), (2 : ℝ), (0 : ℝ), (0 : ℝ)) 0.01).2.2.2 ∧
      (k3fun (DoublePendulumSystem.mk 9.80665 1 1 1 1)
        ((2 : ℝ), (2 : ℝ), (0 : ℝ), (0 : ℝ)) 0.01).2.2.2 ≤ 0.006 := by
    rw [stage3]
    exact h3.2
  obtain ⟨h3al, h3au⟩ := h3a
  obtain ⟨h3bl, h3bu⟩ := h3b
  have he4l : (-0.0005 : ℝ) ≤
      0.01 * (0.01 / 2 * (-9.80665 * Real.sin 2)) := by nlinarith
  have he4u : 0.01 * (0.01 / 2 * (-9.80665 * Real.sin 2)) < 0 := by nlinarith
  have hw4 : |0.01 * (k3fun (DoublePendulumSystem.mk 9.80665 1 1 1 1)
      ((2 : ℝ), (2 : ℝ), (0 : ℝ), (0 : ℝ)) 0.01).2.2.1| ≤ 0.12 :=
    abs_le.mpr ⟨by nlinarith, by nlinarith⟩
  have hu4 : |0.01 * (k3fun (DoublePendulumSystem.mk 9.80665 1 1 1 1)
      ((2 : ℝ), (2 : ℝ), (0 : ℝ), (0 : ℝ)) 0.01).2.2.2| ≤ 0.0001 :=
    abs_le.mpr ⟨by nlinarith, by nlinarith⟩
  have h4 := deriv_pert_bounds
    (0.01 * (0.01 / 2 * (-9.80665 * Real.sin 2)))
    (0.01 * (k3fun (DoublePendulumSystem.mk 9.80665 1 1 1 1)
      ((2 : ℝ), (2 : ℝ), (0 : ℝ), (0 : ℝ)) 0.01).2.2.1)
    (0.01 * (k3fun (DoublePendulumSystem.mk 9.80665 1 1 1 1)
      ((2 : ℝ), (2 : ℝ), (0 : ℝ), (0 : ℝ)) 0.01).2.2.2)
    he4l he4u hw4 hu4
  have h4a : -11.1 ≤ (k4fun (DoublePendulumSystem.mk 9.80665 1 1 1 1)
      ((2 : ℝ), (2 : ℝ), (0 : ℝ), (0 : ℝ)) 0.01).2.2.1 ∧
      (k4fun (DoublePendulumSystem.mk 9.80665 1 1 1 1)
        ((2 : ℝ), (2 : ℝ), (0 : ℝ), (0 : ℝ)) 0.01).2.2.1 ≤ -5.3 := by
    rw [stage4]
    exact h4.1
  have h4b : 0 < (k4fun (DoublePendulumSystem.mk 9.80665 1 1 1 1)
      ((2 : ℝ), (2 : ℝ), (0 : ℝ), (0 : ℝ)) 0.01).2.2.2 ∧
      (k4fun (DoublePendulumSystem.mk 9.80665 1 1 1 1)
        ((2 : ℝ), (2 : ℝ), (0 : ℝ), (0 : ℝ)) 0.01).2.2.2 ≤ 0.006 := by
    rw [stage4]
    exact h4.2
  obtain ⟨h4al, h4au⟩ := h4a
  obtain ⟨h4bl, h4bu⟩ := h4b
  have h41 : (k4fun (DoublePendulumSystem.mk 9.80665 1 1 1 1)
      ((2 : ℝ), (2 : ℝ), (0 : ℝ), (0 : ℝ)) 0.01).1 =
      0.01 * (k3fun (DoublePendulumSystem.mk 9.80665 1 1 1 1)
        ((2 : ℝ), (2 : ℝ), (0 : ℝ), (0 : ℝ)) 0.01).2.2.1 := by
    rw [stage4]
    rfl
  have h42 : (k4fun (DoublePendulumSystem.mk 9.80665 1 1 1 1)
      ((2 : ℝ), (2 : ℝ), (0 : ℝ), (0 : ℝ)) 0.01).2.1 =
      0.01 * (k3fun (DoublePendulumSystem.mk 9.80665 1 1 1 1)
        ((2 : ℝ), (2 : ℝ), (0 : ℝ), (0 : ℝ)) 0.01).2.2.2 := by
    rw [stage4]
    rfl
  have hy : (DoublePendulumState.mk (2 : ℝ) 2 0 0).as_mat =
      ((2 : ℝ), (2 : ℝ), (0 : ℝ), (0 : ℝ)) := rfl
  refine ⟨?_, ?_, ⟨?_, ?_⟩, ⟨?_, ?_⟩⟩
  · rw [step_θ1_eq, hy, stage1, stage2, stage3_fst, h41]
    have hsθ : (DoublePendulumState.mk (2 : ℝ) 2 0 0).θ1 = 2 := rfl
    rw [hsθ]
    dsimp only
    linarith
  · rw [step_θ2_eq, hy, stage1, stage2, stage3_snd, h42]
    have hsθ : (DoublePendulumState.mk (2 : ℝ) 2 0 0).θ2 = 2 := rfl
    rw [hsθ]
    dsimp only
    linarith
  · rw [step_ω1_eq, hy, stage1, stage2]
    have hsω : (DoublePendulumState.mk (2 : ℝ) 2 0 0).ω1 = 0 := rfl
    rw [hsω]
    dsimp only
    linarith
  · rw [step_ω1_eq, hy, stage1, stage2]
    have hsω : (DoublePendulumState.mk (2 : ℝ) 2 0 0).ω1 = 0 := rfl
    rw [hsω]
    dsimp only
    linarith
  · rw [step_ω2_eq, hy, stage1, stage2]
    have hsω : (DoublePendulumState.mk (2 : ℝ) 2 0 0).ω2 = 0 := rfl
    rw [hsω]
    dsimp only
    linarith
  · rw [step_ω2_eq, hy, stage1, stage2]
    have hsω : (DoublePendulumState.mk (2 : ℝ) 2 0 0).ω2 = 0 := rfl
    rw [hsω]
    dsimp only
    linarith

/-- C4 (amended): at the example scenario g = 9.80665, unit masses and
lengths, θ1 = θ2 = 2 and zero velocities, the derivative function yields
exactly (0, 0, -g sin 2, 0), so the inner angular acceleration -g sin 2
is negative while the outer one is exactly zero (the coupling factor
sin (θ1 - θ2) vanishes); one step of size 0.01 then returns a state
whose θ1 has decreased, consistent with the sign of sin 2, and whose ω1
is a nonzero finite negative value in (-0.15, -0.05), of magnitude on
the order of g dt and not 100 times larger, while θ2 increases only
slightly and ω2 is positive yet below 0.0001, far smaller than g dt. -/
theorem deriv_example_values :
    (deriv 2 2 0 0 9.80665 1 1 1 1 =
        (0, 0, -9.80665 * Real.sin 2, 0) ∧
      -9.80665 * Real.sin 2 < 0) ∧
      ((DoublePendulumSystem.mk 9.80665 1 1 1 1).step
          (DoublePendulumState.mk 2 2 0 0) 0.01).θ1 < 2 ∧
      2 < ((DoublePendulumSystem.mk 9.80665 1 1 1 1).step
          (DoublePendulumState.mk 2 2 0 0) 0.01).θ2 ∧
      (-0.15 < ((DoublePendulumSystem.mk 9.80665 1 1 1 1).step
          (DoublePendulumState.mk 2 2 0 0) 0.01).ω1 ∧
        ((DoublePendulumSystem.mk 9.80665 1 1 1 1).step
          (DoublePendulumState.mk 2 2 0 0) 0.01).ω1 < -0.05) ∧
      (0 < ((DoublePendulumSystem.mk 9.80665 1 1 1 1).step
          (DoublePendulumState.mk 2 2 0 0) 0.01).ω2 ∧
        ((DoublePendulumSystem.mk 9.80665 1 1 1 1).step
          (DoublePendulumState.mk 2 2 0 0) 0.01).ω2 < 0.0001) := by
  obtain ⟨hb1, hb2, hb3, hb4⟩ := step_example_bounds
  refine ⟨⟨deriv_at_two_two 0, ?_⟩, hb1, hb2, hb3, hb4⟩
  have h2pi : (2 : ℝ) < Real.pi := lt_trans (by norm_num) Real.pi_gt_three
  have hsin : 0 < Real.sin 2 :=
    Real.sin_pos_of_pos_of_lt_pi (by norm_num) h2pi
  nlinarith

/-- C8: a single step agrees with the first-order Taylor expansion
state + dt * derivative(state) with an error that is big-O of dt squared
as dt tends to 0, in each of the four state components, for a positive
m1, nonnegative m2 and nonzero rod lengths. -/
theorem step_taylor_order2 (sys : DoublePendulumSystem)
    (s : DoublePendulumState) (hm1 : 0 < sys.m1) (hm2 : 0 ≤ sys.m2)
    (hl1 : sys.l1 ≠ 0) (hl2 : sys.l2 ≠ 0) :
    ((fun dt => (sys.step s dt).θ1 - (s.θ1 + dt * (sys.system s.as_mat).1))
        =O[nhds (0 : ℝ)] fun dt => dt ^ 2) ∧
      ((fun dt => (sys.step s dt).θ2
          - (s.θ2 + dt * (sys.system s.as_mat).2.1))
        =O[nhds (0 : ℝ)] fun dt => dt ^ 2) ∧
      ((fun dt => (sys.step s dt).ω1
          - (s.ω1 + dt * (sys.system s.as_mat).2.2.1))
        =O[nhds (0 : ℝ)] fun dt => dt ^ 2) ∧
      ((fun dt => (sys.step s dt).ω2
          - (s.ω2 + dt * (sys.system s.as_mat).2.2.2))
        =O[nhds (0 : ℝ)] fun dt => dt ^ 2) := by
  obtain ⟨h21, h22, h23, h24⟩ :=
    differentiableAt_k2fun sys s.as_mat hm1 hm2 hl1 hl2 0
  obtain ⟨h31, h32, h33, h34⟩ :=
    differentiableAt_k3fun sys s.as_mat hm1 hm2 hl1 hl2 0
  obtain ⟨h41, h42, h43, h44⟩ :=
    differentiableAt_k4fun sys s.as_mat hm1 hm2 hl1 hl2 0
  refine ⟨?_, ?_, ?_, ?_⟩
  · have hO2 := mul_isBigO_sq
      (fun dt => (k2fun sys s.as_mat dt).1 - (sys.system s.as_mat).1)
      (h21.sub (differentiableAt_const _)) (by simp [k2fun_zero]) (1 / 3)
    have hO3 := mul_isBigO_sq
      (fun dt => (k3fun sys s.as_mat dt).1 - (sys.system s.as_mat).1)
      (h31.sub (differentiableAt_const _)) (by simp [k3fun_zero]) (1 / 3)
    have hO4 := mul_isBigO_sq
      (fun dt => (k4fun sys s.as_mat dt).1 - (sys.system s.as_mat).1)
      (h41.sub (differentiableAt_const _)) (by simp [k4fun_zero]) (1 / 6)
    have heq : (fun dt => (sys.step s dt).θ1
        - (s.θ1 + dt * (sys.system s.as_mat).1)) =
        (fun dt =>
          (1 / 3 * (dt * ((k2fun sys s.as_mat dt).1
              - (sys.system s.as_mat).1))
            + 1 / 3 * (dt * ((k3fun sys s.as_mat dt).1
              - (sys.system s.as_mat).1)))
          + 1 / 6 * (dt * ((k4fun sys s.as_mat dt).1
              - (sys.system s.as_mat).1))) := by
      funext dt
      rw [step_θ1_eq]
      ring
    rw [heq]
    exact (hO2.add hO3).add hO4
  · have hO2 := mul_isBigO_sq
      (fun dt => (k2fun sys s.as_mat dt).2.1 - (sys.system s.as_mat).2.1)
      (h22.sub (differentiableAt_const _)) (by simp [k2fun_zero]) (1 / 3)
    have hO3 := mul_isBigO_sq
      (fun dt => (k3fun sys s.as_mat dt).2.1 - (sys.system s.as_mat).2.1)
      (h32.sub (differentiableAt_const _)) (by simp [k3fun_zero]) (1 / 3)
    have hO4 := mul_isBigO_sq
      (fun dt => (k4fun sys s.as_mat dt).2.1 - (sys.system s.as_mat).2.1)
      (h42.sub (differentiableAt_const _)) (by simp [k4fun_zero]) (1 / 6)
    have heq : (fun dt => (sys.step s dt).θ2
        - (s.θ2 + dt * (sys.system s.as_mat).2.1)) =
        (fun dt =>
          (1 / 3 * (dt * ((k2fun sys s.as_mat dt).2.1
              - (sys.system s.as_mat).2.1))
            + 1 / 3 * (dt * ((k3fun sys s.as_mat dt).2.1
              - (sys.system s.as_mat).2.1)))
          + 1 / 6 * (dt * ((k4fun sys s.as_mat dt).2.1
              - (sys.system s.as_mat).2.1))) := by
      funext dt
      rw [step_θ2_eq]
      ring
    rw [heq]
    exact (hO2.add hO3).add hO4
  · have hO2 := mul_isBigO_sq
      (fun dt => (k2fun sys s.as_mat dt).2.2.1
        - (sys.system s.as_mat).2.2.1)
      (h23.sub (differentiableAt_const _)) (by simp [k2fun_zero]) (1 / 3)
    have hO3 := mul_isBigO_sq
      (fun dt => (k3fun sys s.as_mat dt).2.2.1
        - (sys.system s.as_mat).2.2.1)
      (h33.sub (differentiableAt_const _)) (by simp [k3fun_zero]) (1 / 3)
    have hO4 := mul_isBigO_sq
      (fun dt => (k4fun sys s.as_mat dt).2.2.1
        - (sys.system s.as_mat).2.2.1)
      (h43.sub (differentiableAt_const _)) (by simp [k4fun_zero]) (1 / 6)
    have heq : (fun dt => (sys.step s dt).ω1
        - (s.ω1 + dt * (sys.system s.as_mat).2.2.1)) =
        (fun dt =>
          (1 / 3 * (dt * ((k2fun sys s.as_mat dt).2.2.1
              - (sys.system s.as_mat).2.2.1))
            + 1 / 3 * (dt * ((k3fun sys s.as_mat dt).2.2.1
              - (sys.system s.as_mat).2.2.1)))
          + 1 / 6 * (dt * ((k4fun sys s.as_mat dt).2.2.1
              - (sys.system s.as_mat).2.2.1))) := by
      funext dt
      rw [step_ω1_eq]
      ring
    rw [heq]
    exact (hO2.add hO3).add hO4
  · have hO2 := mul_isBigO_sq
      (fun dt => (k2fun sys s.as_mat dt).2.2.2
        - (sys.system s.as_mat).2.2.2)
      (h24.sub (differentiableAt_const _)) (by simp [k2fun_zero]) (1 / 3)
    have hO3 := mul_isBigO_sq
      (fun dt => (k3fun sys s.as_mat dt).2.2.2
        - (sys.system s.as_mat).2.2.2)
      (h34.sub (differentiableAt_const _)) (by simp [k3fun_zero]) (1 / 3)
    have hO4 := mul_isBigO_sq
      (fun dt => (k4fun sys s.as_mat dt).2.2.2
        - (sys.system s.as_mat).2.2.2)
      (h44.sub (differentiableAt_const _)) (by simp [k4fun_zero]) (1 / 6)
    have heq : (fun dt => (sys.step s dt).ω2
        - (s.ω2 + dt * (sys.system s.as_mat).2.2.2)) =
        (fun dt =>
          (1 / 3 * (dt * ((k2fun sys s.as_mat dt).2.2.2
              - (sys.system s.as_mat).2.2.2))
            + 1 / 3 * (dt * ((k3fun sys s.as_mat dt).2.2.2
              - (sys.system s.as_mat).2.2.2)))
          + 1 / 6 * (dt * ((k4fun sys s.as_mat dt).2.2.2
              - (sys.system s.as_mat).2.2.2))) := by
      funext dt
      rw [step_ω2_eq]
      ring
    rw [heq]
    exact (hO2.add hO3).add hO4

/-- C8 witness: the Taylor bound applied at the default parameters and
the startup state. -/
theorem step_taylor_order2_witness :
    ((fun dt => ((DoublePendulumSystem.mk 9.80665 1 1 1 1).step
          (DoublePendulumState.mk 2 2 0 0) dt).θ1
        - ((DoublePendulumState.mk 2 2 0 0).θ1
          + dt * ((DoublePendulumSystem.mk 9.80665 1 1 1 1).system
            (DoublePendulumState.mk 2 2 0 0).as_mat).1))
        =O[nhds (0 : ℝ)] fun dt => dt ^ 2) ∧
      ((fun dt => ((DoublePendulumSystem.mk 9.80665 1 1 1 1).step
          (DoublePendulumState.mk 2 2 0 0) dt).θ2
        - ((DoublePendulumState.mk 2 2 0 0).θ2
          + dt * ((DoublePendulumSystem.mk 9.80665 1 1 1 1).system
            (DoublePendulumState.mk 2 2 0 0).as_mat).2.1))
        =O[nhds (0 : ℝ)] fun dt => dt ^ 2) ∧
      ((fun dt => ((DoublePendulumSystem.mk 9.80665 1 1 1 1).step
          (DoublePendulumState.mk 2 2 0 0) dt).ω1
        - ((DoublePendulumState.mk 2 2 0 0).ω1
          + dt * ((DoublePendulumSystem.mk 9.80665 1 1 1 1).system
            (DoublePendulumState.mk 2 2 0 0).as_mat).2.2.1))
        =O[nhds (0 : ℝ)] fun dt => dt ^ 2) ∧
      ((fun dt => ((DoublePendulumSystem.mk 9.80665 1 1 1 1).step
          (DoublePendulumState.mk 2 2 0 0) dt).ω2
        - ((DoublePendulumState.mk 2 2 0 0).ω2
          + dt * ((DoublePendulumSystem.mk 9.80665 1 1 1 1).system
            (DoublePendulumState.mk 2 2 0 0).as_mat).2.2.2))
        =O[nhds (0 : ℝ)] fun dt => dt ^ 2) :=
  step_taylor_order2 (DoublePendulumSystem.mk 9.80665 1 1 1 1)
    (DoublePendulumState.mk 2 2 0 0) one_pos zero_le_one one_ne_zero
    one_ne_zero

/-- C10: a step of size zero is the identity on the state. -/
theorem step_zero (sys : DoublePendulumSystem) (s : DoublePendulumState) :
    sys.step s 0 = s := by
  cases s
  simp only [DoublePendulumSystem.step, rk4Step, DoublePendulumState.as_mat,
    vadd, vsmul]
  norm_num

end DblPendulum
